import Mathlib

/-!
Verification development for the `QuickMapMaker` G3 pipeline module
(`src/notebooks/g3mapmaker.py`).

The Python class is embedded shallowly:
* the mutable object state (`self.*` fields) becomes the structure `MapState`,
* `__init__` becomes `QuickMapMaker.init`, returning `Except` to model the
  runtime errors Python raises (`ZeroDivisionError` for `res = 0`,
  `ValueError` for a negative array dimension / sample count),
* `Process` becomes `QuickMapMaker.Process`, returning the post-call state
  (including mutations made before an exception) together with either the
  returned value or the raised error,
* numpy floats are modelled as real numbers; numpy's float division by zero
  (which yields inf, no exception) is modelled by Lean's `x / 0 = 0` — no
  claim here depends on that corner,
* scipy `Rotation.from_quat` normalizes its (vector-first) quaternion input
  and `p * q` composes rotations by the Hamilton product; rotations are
  modelled as quaternions with application by conjugation.  The data model
  delivers unit quaternions, for which this is exactly scipy's behaviour.
-/

/-- Runtime errors raised by `QuickMapMaker`.  `keyError` is the
`KeyError` of `self.det_offset_dict[kid]` (the spec's
`MissingCalibrationError`); `calibrationDecode` is the error `h5py.File`
raises on a malformed blob (the spec's `CalibrationDecodeError`). -/
inductive PyErr : Type
  | zeroDivision
  | valueError
  | keyError
  | calibrationDecode

/-- Scalar-first quaternion sample (w, x, y, z): the storage order of the
frame field `shared_boresight_radec`. -/
structure QuatSF : Type where
  w : ℝ
  x : ℝ
  y : ℝ
  z : ℝ

/-- Vector-first quaternion (x, y, z, w): the order scipy `from_quat`
expects, and the order detector offset quaternions are already stored in. -/
structure QuatVF : Type where
  x : ℝ
  y : ℝ
  z : ℝ
  w : ℝ

/-- The reindexing `boresight_q[:, [1,2,3,0]]`: scalar-first to
vector-first. -/
def sfToVf (q : QuatSF) : QuatVF := ⟨q.x, q.y, q.z, q.w⟩

/-- A vector-first quaternion as a Mathlib quaternion (real part first). -/
noncomputable def toQuaternion (q : QuatVF) : Quaternion ℝ := ⟨q.w, q.x, q.y, q.z⟩

/-- scipy `Rotation.from_quat`: the quaternion, normalized. -/
noncomputable def fromQuat (q : QuatVF) : Quaternion ℝ :=
  (‖toQuaternion q‖)⁻¹ • toQuaternion q

/-- A 3-vector as a purely imaginary quaternion. -/
noncomputable def pureQuat (v : ℝ × ℝ × ℝ) : Quaternion ℝ := ⟨0, v.1, v.2.1, v.2.2⟩

/-- scipy `Rotation.apply`: rotate a 3-vector by conjugation with the
(unit) quaternion of the rotation. -/
noncomputable def rotApply (r : Quaternion ℝ) (v : ℝ × ℝ × ℝ) : ℝ × ℝ × ℝ :=
  ((r * pureQuat v * star r).imI,
   (r * pureQuat v * star r).imJ,
   (r * pureQuat v * star r).imK)

/-- numpy `arctan2 y x` (result in (-pi, pi]). -/
noncomputable def arctan2 (y x : ℝ) : ℝ :=
  if 0 < x then Real.arctan (y / x)
  else if x < 0 then
    (if 0 ≤ y then Real.arctan (y / x) + Real.pi else Real.arctan (y / x) - Real.pi)
  else if 0 < y then Real.pi / 2
  else if y < 0 then -(Real.pi / 2)
  else 0

/-- numpy `degrees`. -/
noncomputable def degrees (t : ℝ) : ℝ := t * (180 / Real.pi)

/-- numpy float `% 360` (Python-style modulo, result in [0, 360) for
finite input). -/
noncomputable def fmod360 (x : ℝ) : ℝ := x - 360 * (⌊x / 360⌋ : ℤ)

/-- The per-sample pointing vector the code computes for one detector:
`(boresight_r * det_r).apply([0,0,1])`, lines 96-99 of the source. -/
noncomputable def pointingVec (b : QuatSF) (d : QuatVF) : ℝ × ℝ × ℝ :=
  rotApply (fromQuat (sfToVf b) * fromQuat d) (0, 0, 1)

/-- The per-sample (ra, dec) pair the code computes for one detector
(lines 102-103): `ra = degrees(arctan2 vy vx) % 360`,
`dec = degrees(arcsin vz)`. -/
noncomputable def detRaDec (b : QuatSF) (d : QuatVF) : ℝ × ℝ :=
  (fmod360 (degrees (arctan2 (pointingVec b d).2.1 (pointingVec b d).1)),
   degrees (Real.arcsin (pointingVec b d).2.2))

/-- Modelled from the spec (claim C4): the spec's step 2-3 pointing vector,
"compose the boresight rotation with the detector's fixed offset rotation
(boresight after offset)" and "apply the composed rotation to the fixed
reference unit vector (0,0,1)", i.e. the offset rotation applied first,
then the boresight rotation. -/
noncomputable def specPointingVec (b : QuatSF) (d : QuatVF) : ℝ × ℝ × ℝ :=
  rotApply (fromQuat (sfToVf b)) (rotApply (fromQuat d) (0, 0, 1))

/-- Modelled from the spec (claim C4): step 4 of the spec's algorithm,
applied to the spec's composed pointing vector. -/
noncomputable def specRaDec (b : QuatSF) (d : QuatVF) : ℝ × ℝ :=
  (fmod360 (degrees (arctan2 (specPointingVec b d).2.1 (specPointingVec b d).1)),
   degrees (Real.arcsin (specPointingVec b d).2.2))

/-- Python `int()` applied to a float: truncation toward zero. -/
noncomputable def pyInt (q : ℝ) : ℤ := if 0 ≤ q then ⌊q⌋ else -⌊-q⌋

/-- numpy `linspace a b n`: `n` evenly spaced points from `a` to `b`
inclusive.  (For `n = 1` the formula degenerates to `[a]`, matching numpy,
because Lean's real division by zero is zero.) -/
noncomputable def linspace (a b : ℝ) (n : ℕ) : List ℝ :=
  (List.range n).map fun i : ℕ => a + (i : ℝ) * ((b - a) / ((n : ℝ) - 1))

/-- numpy's histogram bin search, 0-based: value `v` is in bin `i` iff
`edges[i] <= v < edges[i+1]`, except that the last bin is also closed on
the right.  `k` is the index of the head of the remaining edge list. -/
noncomputable def binIndexAux (v : ℝ) : List ℝ → ℕ → Option ℕ
  | [], _ => none
  | [_], _ => none
  | a :: b :: rest, k =>
    if a ≤ v ∧ (v < b ∨ (rest = [] ∧ v = b)) then some k
    else binIndexAux v (b :: rest) (k + 1)

/-- Bin index of `v` in the edge list `edges` (numpy's binning rule). -/
noncomputable def binIndex (edges : List ℝ) (v : ℝ) : Option ℕ :=
  binIndexAux v edges 0

/-- numpy `histogram2d xs ys bins=[xE, yE] weights=ws`, as a total grid:
entry `(i, j)` is the sum of the weights of the samples whose first
coordinate falls into x-bin `i` and second into y-bin `j`; out-of-range
samples contribute nowhere. -/
noncomputable def histogram2d {M : Type} [AddCommMonoid M] (xE yE : List ℝ) :
    List ((ℝ × ℝ) × M) → ℕ → ℕ → M
  | [] => fun _ _ => 0
  | s :: rest =>
    match binIndex xE s.1.1, binIndex yE s.1.2 with
    | some i, some j => fun a b =>
        if a = i ∧ b = j then histogram2d xE yE rest a b + s.2
        else histogram2d xE yE rest a b
    | _, _ => histogram2d xE yE rest

/-- Python dict lookup for a dict built from an association list
(last binding of a key wins, as in a dict comprehension). -/
def lookupLast {α : Type} : List (String × α) → String → Option α
  | [], _ => none
  | (k', v) :: rest, k =>
    match lookupLast rest k with
    | some r => some r
    | none => if k' = k then some v else none

/-- The object state of a `QuickMapMaker` instance (its `self.*` fields).
`sky_map` and `hits_map` are total functions on indices; only indices
below `ny`/`nx` are meaningful, and all operations of the class touch
only those. -/
@[ext]
structure MapState : Type where
  ra0 : ℝ
  dec0 : ℝ
  xlen : ℝ
  ylen : ℝ
  res : ℝ
  nx : ℤ
  ny : ℤ
  ra_edges : List ℝ
  dec_edges : List ℝ
  sky_map : ℕ → ℕ → ℝ
  hits_map : ℕ → ℕ → ℤ
  det_offset_dict : List (String × QuatVF)

/-- `QuickMapMaker.__init__`.  The source performs no validation of its
own: `int(xlen/res)` raises `ZeroDivisionError` when `res = 0`, and
`np.linspace`/`np.zeros` raise `ValueError` when a derived count is
negative; a zero-row or zero-column grid is constructed without
complaint. -/
noncomputable def QuickMapMaker.init (ra0 dec0 xlen ylen res : ℝ) : Except PyErr MapState :=
  if res = 0 then Except.error PyErr.zeroDivision
  else if pyInt (xlen / res) < 0 ∨ pyInt (ylen / res) < 0 then Except.error PyErr.valueError
  else Except.ok
    { ra0 := ra0, dec0 := dec0, xlen := xlen, ylen := ylen, res := res,
      nx := pyInt (xlen / res), ny := pyInt (ylen / res),
      ra_edges := (linspace (-xlen / 2) (xlen / 2) (pyInt (xlen / res) + 1).toNat).map
        (fun t => t + ra0),
      dec_edges := (linspace (-ylen / 2) (ylen / 2) (pyInt (ylen / res) + 1).toNat).map
        (fun t => t + dec0),
      sky_map := fun _ _ => 0,
      hits_map := fun _ _ => 0,
      det_offset_dict := [] }

/-- The calibration blob: either malformed (h5py fails to open it) or a
well-formed focalplane table with a name column and a quaternion column.
The blob's internal encoding is external to this module; the source only
consumes the two columns. -/
inductive FPBlob : Type
  | malformed
  | table (names : List String) (quats : List QuatVF)

/-- A G3 frame as consumed by `Process`, by frame type.  Scan frames carry
the `"signal"` mapping (insertion-ordered, as `list(raw_signal.keys())`
iterates it), the `"shared_boresight_radec"` quaternion samples
(scalar-first), and the optional per-detector compression scalars
`compress_signal_<kid>_gain` / `compress_signal_<kid>_offset`. -/
inductive Frame : Type
  | calibration (blob : FPBlob)
  | scan (signal : List (String × List ℝ)) (bore : List QuatSF)
      (gainOf : String → Option ℝ) (offsetOf : String → Option ℝ)
  | endProcessing
  | other (tag : ℕ)

/-- Signal reconstruction for one detector (lines 85-92): if both
compression scalars are present, `y = y_raw/gain + offset`, else the raw
samples unchanged. -/
noncomputable def physSignal (gain offset : Option ℝ) (yraw : List ℝ) : List ℝ :=
  match gain, offset with
  | some g, some o => yraw.map fun v => v / g + o
  | _, _ => yraw

/-- The body of the per-detector loop of the scan branch (lines 83-114):
look up the detector offset (raising `KeyError` when absent), compute the
per-sample (dec, ra) pairs, and add the weighted and unweighted 2d
histograms into the two grids.  numpy raises `ValueError` when the weight
array's length differs from the sample count. -/
noncomputable def processDetector (decE raE : List ℝ) (dict : List (String × QuatVF))
    (bore : List QuatSF) (gain offset : Option ℝ) (yraw : List ℝ) (kid : String)
    (sky : ℕ → ℕ → ℝ) (hits : ℕ → ℕ → ℤ) :
    (ℕ → ℕ → ℝ) × (ℕ → ℕ → ℤ) × Option PyErr :=
  match lookupLast dict kid with
  | none => (sky, hits, some PyErr.keyError)
  | some dq =>
    if (physSignal gain offset yraw).length = bore.length then
      (fun i j => sky i j +
         histogram2d decE raE
           ((bore.map fun b => Prod.swap (detRaDec b dq)).zip (physSignal gain offset yraw)) i j,
       fun i j => hits i j +
         histogram2d decE raE
           ((bore.map fun b => Prod.swap (detRaDec b dq)).map fun p => (p, (1 : ℤ))) i j,
       none)
    else (sky, hits, some PyErr.valueError)

/-- The detector loop of the scan branch: detectors are processed in
mapping order, and the first error aborts the loop with all mutations
made by earlier iterations kept (Python exceptions do not roll back
`self.sky_map` / `self.hits_map`). -/
noncomputable def processKids (bore : List QuatSF) (gainOf offsetOf : String → Option ℝ) :
    MapState → List (String × List ℝ) → MapState × Option PyErr
  | st, [] => (st, none)
  | st, (kid, yraw) :: rest =>
    match processDetector st.dec_edges st.ra_edges st.det_offset_dict bore
        (gainOf kid) (offsetOf kid) yraw kid st.sky_map st.hits_map with
    | (sky, hits, none) =>
      processKids bore gainOf offsetOf { st with sky_map := sky, hits_map := hits } rest
    | (sky, hits, some e) => ({ st with sky_map := sky, hits_map := hits }, some e)

/-- `QuickMapMaker.Process`.  Returns the post-call state together with
either the value Python returns (`some frame` for the three handled
types, `none` for the fall-through on any other type) or the raised
error.  The calibration branch replaces the offset dict with the dict
comprehension over `zip(names, quats)` (which truncates to the shorter
column); the EndProcessing branch only reads state (plotting is
external). -/
noncomputable def QuickMapMaker.Process (st : MapState) (f : Frame) :
    MapState × Except PyErr (Option Frame) :=
  match f with
  | Frame.calibration FPBlob.malformed => (st, Except.error PyErr.calibrationDecode)
  | Frame.calibration (FPBlob.table names quats) =>
    ({ st with det_offset_dict := names.zip quats }, Except.ok (some f))
  | Frame.scan signal bore gainOf offsetOf =>
    (match processKids bore gainOf offsetOf st signal with
     | (st1, none) => (st1, Except.ok (some f))
     | (st1, some e) => (st1, Except.error e))
  | Frame.endProcessing => (st, Except.ok (some f))
  | Frame.other _ => (st, Except.ok none)

/-- The final map computed in the EndProcessing branch (lines 123-126):
`signalSum` copied wherever `hitCount > 0`, zero elsewhere. -/
noncomputable def finalMap (st : MapState) : ℕ → ℕ → ℝ :=
  fun i j => if 0 < st.hits_map i j then st.sky_map i j else 0

/-- Sum of a grid over the pixel rectangle `[0, n) x [0, m)`. -/
noncomputable def gridSum {M : Type} [AddCommMonoid M] (n m : ℕ) (g : ℕ → ℕ → M) : M :=
  ∑ i ∈ Finset.range n, ∑ j ∈ Finset.range m, g i j

/-- The spec's binning-range predicate (claim C3): `v` lies within the
edge ranges iff some bin `i` satisfies `edges[i] <= v < edges[i+1]`, the
final bin being additionally closed on the right at the maximum edge. -/
def inGridRange (edges : List ℝ) (v : ℝ) : Prop :=
  ∃ i, i + 1 < edges.length ∧ edges.getD i 0 ≤ v ∧
    (v < edges.getD (i + 1) 0 ∨ (i + 2 = edges.length ∧ v = edges.getD (i + 1) 0))

open Classical in
/-- Number of (dec, ra) pairs of a list that fall within both edge
ranges. -/
noncomputable def inRangeCount (decE raE : List ℝ) (pts : List (ℝ × ℝ)) : ℕ :=
  pts.countP fun p => decide (inGridRange decE p.1 ∧ inGridRange raE p.2)

/-- The (dec, ra) sample pairs a scan batch produces for one detector id
(empty when the id is not in the offset table). -/
noncomputable def detPts (dict : List (String × QuatVF)) (bore : List QuatSF)
    (kid : String) : List (ℝ × ℝ) :=
  match lookupLast dict kid with
  | some dq => bore.map fun b => Prod.swap (detRaDec b dq)
  | none => []

/-- The identity rotation quaternion, scalar-first. -/
noncomputable def idSF : QuatSF := ⟨1, 0, 0, 0⟩

/-- The identity rotation quaternion, vector-first. -/
noncomputable def idVF : QuatVF := ⟨0, 0, 0, 1⟩

/-- The state `QuickMapMaker(ra0=0, dec0=90, xlen=1, ylen=1, res=1/2)`
constructs: a 2 x 2 grid with `ra_edges = [-1/2, 0, 1/2]` and
`dec_edges = [179/2, 90, 181/2]`. -/
noncomputable def stA : MapState :=
  { ra0 := 0, dec0 := 90, xlen := 1, ylen := 1, res := 1 / 2, nx := 2, ny := 2,
    ra_edges := [-(1 / 2), 0, 1 / 2],
    dec_edges := [179 / 2, 90, 181 / 2],
    sky_map := fun _ _ => 0,
    hits_map := fun _ _ => 0,
    det_offset_dict := [] }

/-- `stA` after a calibration frame installing one detector `"d1"` with
the identity offset. -/
noncomputable def stCal : MapState :=
  { stA with det_offset_dict := [("d1", idVF)] }

/-- A gain/offset assignment with no compression fields present. -/
def noComp : String → Option ℝ := fun _ => none

/-- A scan frame: one detector `"d1"`, one sample of value 5, identity
boresight, no compression fields. -/
noncomputable def scan5F : Frame := Frame.scan [("d1", [5])] [idSF] noComp noComp

/-- A scan frame: detector `"d1"` (sample 5) followed by detector `"d2"`
(sample 7) which is absent from `stCal`'s offset table. -/
noncomputable def scanTwoF : Frame :=
  Frame.scan [("d1", [5]), ("d2", [7])] [idSF] noComp noComp

/-- A scan frame: one detector `"d1"`, one sample of value -3, identity
boresight. -/
noncomputable def scanNegF : Frame := Frame.scan [("d1", [-3])] [idSF] noComp noComp

/-- `stCal` after processing `scan5F`: the single sample lands in pixel
(1, 1). -/
noncomputable def stB : MapState :=
  { stCal with
    sky_map := fun i j => if i = 1 ∧ j = 1 then (5 : ℝ) else 0,
    hits_map := fun i j => if i = 1 ∧ j = 1 then (1 : ℤ) else 0 }

/-- `stB` after processing `scanNegF`: the accumulated signal at pixel
(1, 1) drops from 5 to 2 while its hit count rises to 2. -/
noncomputable def stC : MapState :=
  { stCal with
    sky_map := fun i j => if i = 1 ∧ j = 1 then (2 : ℝ) else 0,
    hits_map := fun i j => if i = 1 ∧ j = 1 then (2 : ℤ) else 0 }

/-- The degenerate state `QuickMapMaker(ra0=0, dec0=0, xlen=1, ylen=1,
res=2)` constructs without any error: zero columns, zero rows, a single
edge on each axis. -/
noncomputable def stDegenerate : MapState :=
  { ra0 := 0, dec0 := 0, xlen := 1, ylen := 1, res := 2, nx := 0, ny := 0,
    ra_edges := [-(1 / 2)],
    dec_edges := [-(1 / 2)],
    sky_map := fun _ _ => 0,
    hits_map := fun _ _ => 0,
    det_offset_dict := [] }

/-- Conjugating a purely imaginary quaternion keeps it purely
imaginary. -/
theorem re_conj_pure (p x : Quaternion ℝ) (hx : x.re = 0) : (p * x * star p).re = 0 := by
  simp only [Quaternion.mul_re, Quaternion.mul_imI, Quaternion.mul_imJ, Quaternion.mul_imK,
    Quaternion.star_re, Quaternion.star_imI, Quaternion.star_imJ, Quaternion.star_imK, hx]
  ring

/-- Re-embedding the three imaginary components of a purely imaginary
quaternion recovers it. -/
theorem pureQuat_of_re_zero (w : Quaternion ℝ) (hw : w.re = 0) :
    pureQuat (w.imI, w.imJ, w.imK) = w := by
  ext
  · exact hw.symm
  · rfl
  · rfl
  · rfl

/-- Quaternion conjugation is a rotation homomorphism: applying the
product rotation equals applying the right factor, then the left. -/
theorem rotApply_mul (p q : Quaternion ℝ) (v : ℝ × ℝ × ℝ) :
    rotApply (p * q) v = rotApply p (rotApply q v) := by
  have main : (p * q) * pureQuat v * star (p * q)
      = p * (q * pureQuat v * star q) * star p := by
    rw [star_mul]
    simp only [mul_assoc]
  unfold rotApply
  rw [pureQuat_of_re_zero (q * pureQuat v * star q) (re_conj_pure q (pureQuat v) rfl), main]

/-- Claim C4: for every sample of a processed scan batch and every
detector, the (ra, dec) pair used for binning is obtained by composing
the boresight rotation with the detector's fixed offset rotation in the
order boresight after offset, applying the composed rotation to the
reference unit vector (0,0,1), and converting the result via
`ra = atan2(vy, vx)` in degrees normalized into [0, 360) and
`dec = asin(vz)` in degrees: the code's computation `detRaDec` agrees
with the spec-modelled `specRaDec` for all quaternion inputs. -/
theorem C4_pointing_composition (b : QuatSF) (d : QuatVF) :
    detRaDec b d = specRaDec b d := by
  unfold detRaDec specRaDec pointingVec specPointingVec
  rw [rotApply_mul]

/-- The identity offset quaternion normalizes to the quaternion 1. -/
theorem fromQuat_idVF : fromQuat idVF = 1 := by
  have h1 : toQuaternion idVF = 1 := by
    unfold toQuaternion idVF
    ext <;> rfl
  unfold fromQuat
  rw [h1, norm_one, inv_one, one_smul]

/-- Applying the identity rotation leaves the vector unchanged. -/
theorem rotApply_one (v : ℝ × ℝ × ℝ) : rotApply 1 v = v := by
  unfold rotApply
  rw [one_mul, star_one, mul_one]
  rfl

/-- numpy `arctan2 0 0 = 0`. -/
theorem arctan2_zero_zero : arctan2 0 0 = 0 := by
  unfold arctan2
  norm_num

/-- The identity-pointing evaluation: with identity boresight and identity
detector offset the code's (ra, dec) is exactly (0, 90). -/
theorem detRaDec_id : detRaDec idSF idVF = (0, 90) := by
  have hsf : sfToVf idSF = idVF := by
    unfold sfToVf idSF idVF
    rfl
  have hvec : pointingVec idSF idVF = (0, 0, 1) := by
    unfold pointingVec
    rw [hsf, fromQuat_idVF, one_mul, rotApply_one]
  unfold detRaDec
  rw [hvec]
  have hra : fmod360 (degrees (arctan2 (0, (0 : ℝ), (1 : ℝ)).2.1 (0, (0 : ℝ), (1 : ℝ)).1)) = 0 := by
    have : arctan2 (0 : ℝ) 0 = 0 := arctan2_zero_zero
    unfold fmod360 degrees
    norm_num [this]
  have hdec : degrees (Real.arcsin (0, (0 : ℝ), (1 : ℝ)).2.2) = 90 := by
    unfold degrees
    norm_num [Real.arcsin_one]
    field_simp
    ring
  rw [hra, hdec]

/-- The value 90 falls in dec-bin 1 of `stA` (edge 90 is the left edge of
the second bin). -/
theorem binIndex_dec90 : binIndex stA.dec_edges 90 = some 1 := by
  show binIndex [179 / 2, 90, 181 / 2] 90 = some 1
  norm_num [binIndex, binIndexAux]

/-- The value 0 falls in ra-bin 1 of `stA`. -/
theorem binIndex_ra0 : binIndex stA.ra_edges 0 = some 1 := by
  show binIndex [-(1 / 2), 0, 1 / 2] 0 = some 1
  norm_num [binIndex, binIndexAux]

/-- Constructing `QuickMapMaker(0, 90, 1, 1, 1/2)` succeeds and yields
`stA`. -/
theorem initA : QuickMapMaker.init 0 90 1 1 (1 / 2) = Except.ok stA := by
  have hpy : pyInt ((1 : ℝ) / (1 / 2)) = 2 := by
    unfold pyInt
    norm_num
  have hr3 : List.range 3 = [0, 1, 2] := by decide
  unfold QuickMapMaker.init
  rw [if_neg (by norm_num : ¬((1 : ℝ) / 2 = 0)), hpy]
  rw [if_neg (by norm_num : ¬((2 : ℤ) < 0 ∨ (2 : ℤ) < 0))]
  have ht : ((2 : ℤ) + 1).toNat = 3 := by decide
  rw [ht]
  unfold linspace
  rw [hr3]
  simp only [Except.ok.injEq]
  refine MapState.ext rfl rfl rfl rfl rfl rfl rfl ?_ ?_ rfl rfl rfl
  · show _ = stA.ra_edges
    norm_num [stA]
  · show _ = stA.dec_edges
    norm_num [stA]

/-- Constructing `QuickMapMaker(0, 0, 1, 1, 2)` — a grid with zero rows
and zero columns — succeeds without any error. -/
theorem initDegenerate : QuickMapMaker.init 0 0 1 1 2 = Except.ok stDegenerate := by
  have hpy : pyInt ((1 : ℝ) / 2) = 0 := by
    unfold pyInt
    norm_num [Int.floor_eq_zero_iff, Set.mem_Ico]
  have hr1 : List.range 1 = [0] := by decide
  unfold QuickMapMaker.init
  rw [if_neg (by norm_num : ¬((2 : ℝ) = 0)), hpy]
  rw [if_neg (by norm_num : ¬((0 : ℤ) < 0 ∨ (0 : ℤ) < 0))]
  have ht : ((0 : ℤ) + 1).toNat = 1 := by decide
  rw [ht]
  unfold linspace
  rw [hr1]
  simp only [Except.ok.injEq]
  refine MapState.ext rfl rfl rfl rfl rfl rfl rfl ?_ ?_ rfl rfl rfl
  · show _ = stDegenerate.ra_edges
    norm_num [stDegenerate]
  · show _ = stDegenerate.dec_edges
    norm_num [stDegenerate]

/-- Looking up `"d1"` in the one-entry offset table finds the identity
offset. -/
theorem lookup_d1 : lookupLast [("d1", idVF)] "d1" = some idVF := by
  simp [lookupLast]

/-- Looking up `"d2"` in the one-entry offset table fails. -/
theorem lookup_d2 : lookupLast [("d1", idVF)] "d2" = none := by
  simp [lookupLast]

/-- A single sample at (dec, ra) = (90, 0) histograms into the single
cell (1, 1) of `stA`'s grid. -/
theorem histogram2d_single {M : Type} [AddCommMonoid M] (w : M) :
    histogram2d stA.dec_edges stA.ra_edges [(((90 : ℝ), (0 : ℝ)), w)]
    = fun a b => if a = 1 ∧ b = 1 then w else 0 := by
  funext a b
  simp [histogram2d, binIndex_dec90, binIndex_ra0]

/-- Evaluating the detector loop body for `"d1"` with one sample of value
`y0`: the sample lands in pixel (1, 1) of both grids. -/
theorem detStep (y0 : ℝ) (sky : ℕ → ℕ → ℝ) (hits : ℕ → ℕ → ℤ) :
    processDetector stA.dec_edges stA.ra_edges [("d1", idVF)] [idSF] none none [y0] "d1" sky hits
    = (fun i j => sky i j + if i = 1 ∧ j = 1 then y0 else 0,
       fun i j => hits i j + if i = 1 ∧ j = 1 then 1 else 0, none) := by
  unfold processDetector
  rw [lookup_d1]
  have hmap : ([idSF].map fun b => Prod.swap (detRaDec b idVF)) = [((90 : ℝ), (0 : ℝ))] := by
    simp [detRaDec_id]
  simp only [physSignal, hmap, List.zip_cons_cons, List.zip_nil_right, List.map_cons,
    List.map_nil, List.length_cons, List.length_nil, if_pos rfl, histogram2d_single,
    if_true]

/-- The detector loop body raises `KeyError` for `"d2"`, which is absent
from the one-entry offset table, leaving the grids as they were. -/
theorem detStepMissing (y : List ℝ) (sky : ℕ → ℕ → ℝ) (hits : ℕ → ℕ → ℤ) :
    processDetector stA.dec_edges stA.ra_edges [("d1", idVF)] [idSF] none none y "d2" sky hits
    = (sky, hits, some PyErr.keyError) := by
  unfold processDetector
  rw [lookup_d2]

/-- Processing the single-detector scan frame `scan5F` from `stCal`
succeeds, returns the frame, and bins the sample into pixel (1, 1). -/
theorem scan5_eval : QuickMapMaker.Process stCal scan5F = (stB, Except.ok (some scan5F)) := by
  have h1 : processKids [idSF] noComp noComp stCal [("d1", [5])] = (stB, none) := by
    simp only [processKids]
    rw [show stCal.dec_edges = stA.dec_edges from rfl,
      show stCal.ra_edges = stA.ra_edges from rfl,
      show stCal.det_offset_dict = [("d1", idVF)] from rfl,
      show noComp "d1" = (none : Option ℝ) from rfl,
      detStep 5 stCal.sky_map stCal.hits_map]
    simp only [processKids]
    refine Prod.ext ?_ rfl
    refine MapState.ext rfl rfl rfl rfl rfl rfl rfl rfl rfl ?_ ?_ rfl
    · funext i j
      exact zero_add _
    · funext i j
      exact zero_add _
  show QuickMapMaker.Process stCal (Frame.scan [("d1", [5])] [idSF] noComp noComp)
    = (stB, Except.ok (some scan5F))
  simp only [QuickMapMaker.Process, h1]
  rfl

/-- Processing `scanTwoF` (known detector `"d1"` first, unknown `"d2"`
second) from `stCal` raises `KeyError` — but only after `"d1"`'s sample
has already been binned: the post-call state is `stB`, not `stCal`. -/
theorem scanTwo_eval :
    QuickMapMaker.Process stCal scanTwoF = (stB, Except.error PyErr.keyError) := by
  have h1 : processKids [idSF] noComp noComp stCal [("d1", [5]), ("d2", [7])]
      = (stB, some PyErr.keyError) := by
    simp only [processKids]
    rw [show stCal.dec_edges = stA.dec_edges from rfl,
      show stCal.ra_edges = stA.ra_edges from rfl,
      show stCal.det_offset_dict = [("d1", idVF)] from rfl,
      show noComp "d1" = (none : Option ℝ) from rfl,
      detStep 5 stCal.sky_map stCal.hits_map]
    simp only [processKids]
    rw [show noComp "d2" = (none : Option ℝ) from rfl]
    rw [detStepMissing [7]]
    refine Prod.ext ?_ rfl
    refine MapState.ext rfl rfl rfl rfl rfl rfl rfl rfl rfl ?_ ?_ rfl
    · funext i j
      exact zero_add _
    · funext i j
      exact zero_add _
  show QuickMapMaker.Process stCal (Frame.scan [("d1", [5]), ("d2", [7])] [idSF] noComp noComp)
    = (stB, Except.error PyErr.keyError)
  simp only [QuickMapMaker.Process, h1]

/-- Processing `scanNegF` (one sample of value -3 into the already-hit
pixel (1, 1)) from `stB` succeeds and yields `stC`: the accumulated
signal at (1, 1) moves from 5 to 2. -/
theorem scanNeg_eval :
    QuickMapMaker.Process stB scanNegF = (stC, Except.ok (some scanNegF)) := by
  have h1 : processKids [idSF] noComp noComp stB [("d1", [-3])] = (stC, none) := by
    simp only [processKids]
    rw [show stB.dec_edges = stA.dec_edges from rfl,
      show stB.ra_edges = stA.ra_edges from rfl,
      show stB.det_offset_dict = [("d1", idVF)] from rfl,
      show noComp "d1" = (none : Option ℝ) from rfl,
      detStep (-3) stB.sky_map stB.hits_map]
    simp only [processKids]
    refine Prod.ext ?_ rfl
    refine MapState.ext rfl rfl rfl rfl rfl rfl rfl rfl rfl ?_ ?_ rfl
    · funext i j
      show stB.sky_map i j + (if i = 1 ∧ j = 1 then (-3 : ℝ) else 0) = stC.sky_map i j
      by_cases h : i = 1 ∧ j = 1
      · simp only [stB, stC, h, if_true]
        norm_num
      · simp only [stB, stC, h, if_false]
        norm_num
    · funext i j
      show stB.hits_map i j + (if i = 1 ∧ j = 1 then (1 : ℤ) else 0) = stC.hits_map i j
      by_cases h : i = 1 ∧ j = 1
      · simp only [stB, stC, h, if_true]
        norm_num
      · simp only [stB, stC, h, if_false]
        norm_num
  show QuickMapMaker.Process stB (Frame.scan [("d1", [-3])] [idSF] noComp noComp)
    = (stC, Except.ok (some scanNegF))
  simp only [QuickMapMaker.Process, h1]
  rfl

/-- Claim C1, counterexample: from the calibrated state `stCal`, the batch
`scanTwoF` contains the unknown detector id `"d2"`, so `Process` raises
`KeyError` (the spec's `MissingCalibrationError`) — yet the hit-count grid
is NOT left unchanged: detector `"d1"`, which precedes `"d2"` in the
batch, has already been binned (pixel (1, 1) moved from 0 to 1 hits). -/
theorem C1_counterexample :
    QuickMapMaker.Process stCal scanTwoF = (stB, Except.error PyErr.keyError) ∧
    stB.hits_map 1 1 ≠ stCal.hits_map 1 1 := by
  refine ⟨scanTwo_eval, ?_⟩
  norm_num [stB, stCal, stA]

/-- Claim C1, amended: a scan batch raises `KeyError` at the FIRST
detector id absent from the offset table, with every earlier detector of
the batch already binned (partial binning); in particular, when no
calibration table has been populated at all, the error fires on the very
first detector and the grids are left completely unchanged. -/
theorem C1_missing_calibration (st : MapState) (bore : List QuatSF)
    (gainOf offsetOf : String → Option ℝ) (kid : String) (yraw : List ℝ)
    (rest : List (String × List ℝ)) (hdict : st.det_offset_dict = []) :
    QuickMapMaker.Process st (Frame.scan ((kid, yraw) :: rest) bore gainOf offsetOf)
    = (st, Except.error PyErr.keyError) := by
  have hd : processDetector st.dec_edges st.ra_edges st.det_offset_dict bore
      (gainOf kid) (offsetOf kid) yraw kid st.sky_map st.hits_map
      = (st.sky_map, st.hits_map, some PyErr.keyError) := by
    unfold processDetector
    rw [hdict]
    rfl
  simp only [QuickMapMaker.Process, processKids, hd]

/-- Claim C1, amended, witness: processing `scan5F` (nonempty batch) from
the never-calibrated state `stA` raises `KeyError` and leaves the state
(in particular both grids) completely unchanged. -/
theorem C1_missing_calibration_w :
    QuickMapMaker.Process stA scan5F = (stA, Except.error PyErr.keyError) :=
  C1_missing_calibration stA [idSF] noComp noComp "d1" [5] [] rfl

/-- Claim C2: the EndProcessing event reads but does not change the
accumulator state, and the final grid equals `sky_map` at every pixel
with a positive hit count and 0 at every pixel with a zero hit count
(no division by the hit count, no undefined values). -/
theorem C2_finalization (st : MapState) (i j : ℕ) :
    QuickMapMaker.Process st Frame.endProcessing
      = (st, Except.ok (some Frame.endProcessing)) ∧
    (0 < st.hits_map i j → finalMap st i j = st.sky_map i j) ∧
    (st.hits_map i j = 0 → finalMap st i j = 0) := by
  refine ⟨rfl, fun h => ?_, fun h => ?_⟩
  · unfold finalMap
    rw [if_pos h]
  · unfold finalMap
    rw [if_neg (by simp [h])]

/-- Claim C2, witness: on the concrete state `stB`, pixel (1, 1) has one
hit and finalizes to its raw accumulated signal, while pixel (0, 0) has
no hits and finalizes to 0. -/
theorem C2_finalization_w :
    finalMap stB 1 1 = stB.sky_map 1 1 ∧ finalMap stB 0 0 = 0 := by
  constructor
  · exact (C2_finalization stB 1 1).2.1 (by norm_num [stB, stCal, stA])
  · exact (C2_finalization stB 0 0).2.2 (by norm_num [stB, stCal, stA])

/-- Claim C6, counterexample: a calibration frame whose name column has
length 2 but whose quaternion column has length 1 does NOT raise
`CalibrationDecodeError`: `zip` silently truncates, the call succeeds and
installs the one-entry table. -/
theorem C6_counterexample :
    QuickMapMaker.Process stA (Frame.calibration (FPBlob.table ["a", "b"] [idVF]))
      = ({ stA with det_offset_dict := [("a", idVF)] },
         Except.ok (some (Frame.calibration (FPBlob.table ["a", "b"] [idVF])))) ∧
    (["a", "b"] : List String).length ≠ ([idVF] : List QuatVF).length := by
  refine ⟨rfl, ?_⟩
  simp

/-- Claim C6, amended: a malformed calibration blob raises
`CalibrationDecodeError` with the offset table left unchanged, and any
well-formed table blob — including one with mismatched column lengths —
succeeds, replacing the table wholesale by the zip of the two columns
truncated to the shorter one. -/
theorem C6_calibration (st : MapState) (blob : FPBlob) :
    (blob = FPBlob.malformed →
      QuickMapMaker.Process st (Frame.calibration blob)
        = (st, Except.error PyErr.calibrationDecode)) ∧
    (∀ names quats, blob = FPBlob.table names quats →
      QuickMapMaker.Process st (Frame.calibration blob)
        = ({ st with det_offset_dict := names.zip quats },
           Except.ok (some (Frame.calibration blob))) ∧
      (names.zip quats).length = min names.length quats.length) := by
  constructor
  · intro h
    subst h
    rfl
  · intro names quats h
    subst h
    exact ⟨rfl, List.length_zip names quats⟩

/-- Claim C6, amended, witness: a three-name, two-quaternion calibration
replaces `stA`'s (empty) table by the truncated two-entry table. -/
theorem C6_calibration_w :
    QuickMapMaker.Process stA (Frame.calibration (FPBlob.table ["x", "y", "z"] [idVF, idVF]))
      = ({ stA with det_offset_dict := [("x", idVF), ("y", idVF)] },
         Except.ok (some (Frame.calibration (FPBlob.table ["x", "y", "z"] [idVF, idVF])))) ∧
    ((["x", "y", "z"] : List String).zip ([idVF, idVF] : List QuatVF)).length
      = min (["x", "y", "z"] : List String).length ([idVF, idVF] : List QuatVF).length := by
  have h := (C6_calibration stA (FPBlob.table ["x", "y", "z"] [idVF, idVF])).2
    ["x", "y", "z"] [idVF, idVF] rfl
  exact ⟨h.1, h.2⟩

/-- Claim C8: finalization is a pure read — the EndProcessing event
leaves the whole state, in particular `sky_map` and `hits_map`,
unchanged, so computing the final map after the event gives the same
grid as before it (calling finalize twice yields identical grids). -/
theorem C8_finalize_idempotent (st : MapState) :
    (QuickMapMaker.Process st Frame.endProcessing).1 = st ∧
    (QuickMapMaker.Process st Frame.endProcessing).1.sky_map = st.sky_map ∧
    (QuickMapMaker.Process st Frame.endProcessing).1.hits_map = st.hits_map ∧
    finalMap (QuickMapMaker.Process st Frame.endProcessing).1 = finalMap st :=
  ⟨rfl, rfl, rfl, rfl⟩

/-- Claim C10: a scan frame with an empty signal mapping is accepted
without any error — whatever the state, in particular with a
never-populated offset table — returning the frame and leaving the whole
state (grids and offset table) unchanged. -/
theorem C10_empty_signal (st : MapState) (bore : List QuatSF)
    (gainOf offsetOf : String → Option ℝ) :
    QuickMapMaker.Process st (Frame.scan [] bore gainOf offsetOf)
    = (st, Except.ok (some (Frame.scan [] bore gainOf offsetOf))) := rfl

/-- Claim C9, counterexample: a frame of an unhandled type makes
`Process` fall through every branch and return `None` — not the frame
itself (the external framework's convention then passes the input frame
downstream). -/
theorem C9_counterexample :
    QuickMapMaker.Process stA (Frame.other 0) = (stA, Except.ok none) ∧
    (Except.ok (none : Option Frame) : Except PyErr (Option Frame))
      ≠ Except.ok (some (Frame.other 0)) := by
  refine ⟨rfl, ?_⟩
  simp

/-- Claim C9, amended: whenever `Process` returns a frame at all, it is
the incoming frame unmodified; frames of types outside
Calibration/Scan/EndProcessing return `None` (the framework's
pass-through convention) and change no accumulator state. -/
theorem C9_pass_through (st : MapState) (f : Frame) :
    (∀ st1 g, QuickMapMaker.Process st f = (st1, Except.ok (some g)) → g = f) ∧
    (∀ tag, f = Frame.other tag → QuickMapMaker.Process st f = (st, Except.ok none)) := by
  constructor
  · intro st1 g h
    cases f with
    | calibration blob =>
      cases blob with
      | malformed => simp [QuickMapMaker.Process] at h
      | table names quats =>
        simp only [QuickMapMaker.Process, Prod.mk.injEq, Except.ok.injEq,
          Option.some.injEq] at h
        exact h.2.symm
    | scan signal bore gainOf offsetOf =>
      rcases hk : processKids bore gainOf offsetOf st signal with ⟨st2, err⟩
      cases err with
      | none =>
        simp only [QuickMapMaker.Process, hk, Prod.mk.injEq, Except.ok.injEq,
          Option.some.injEq] at h
        exact h.2.symm
      | some e =>
        simp only [QuickMapMaker.Process, hk, Prod.mk.injEq] at h
        exact absurd h.2 (by simp)
    | endProcessing =>
      simp only [QuickMapMaker.Process, Prod.mk.injEq, Except.ok.injEq,
        Option.some.injEq] at h
      exact h.2.symm
    | other tag =>
      simp only [QuickMapMaker.Process, Prod.mk.injEq, Except.ok.injEq] at h
      exact absurd h.2 (by simp)
  · intro tag hf
    subst hf
    rfl

/-- Claim C9, amended, witness: an unhandled frame of tag 3 passes
through `stA` with no state change and a `None` return. -/
theorem C9_pass_through_w :
    QuickMapMaker.Process stA (Frame.other 3) = (stA, Except.ok none) :=
  (C9_pass_through stA (Frame.other 3)).2 3 rfl

/-- Shifting a strictly increasing list of reals by a constant keeps it
strictly increasing. -/
theorem chain_lt_map_add (l : List ℝ) (c : ℝ) (h : l.Chain' (· < ·)) :
    (l.map fun t => t + c).Chain' (· < ·) := by
  refine (List.chain'_map _).mpr ?_
  exact h.imp fun _ _ hab => add_lt_add_right hab c

/-- `linspace a b n` is strictly increasing whenever `a < b`. -/
theorem linspace_chain (a b : ℝ) (n : ℕ) (hab : a < b) :
    (linspace a b n).Chain' (· < ·) := by
  cases n with
  | zero => simp [linspace]
  | succ m =>
    unfold linspace
    refine (List.chain'_map _).mpr ?_
    refine (List.chain'_range_succ _ m).mpr ?_
    intro i hi
    have hm : 1 ≤ m := by omega
    have hm' : (1 : ℝ) ≤ (m : ℝ) := by exact_mod_cast hm
    have hpos : 0 < (b - a) / ((m : ℝ) + 1 - 1) := by
      apply div_pos (by linarith)
      linarith
    push_cast
    nlinarith [hpos]

/-- Claim C5, counterexample: the construction input (0, 0, 1, 1, 2) has
`floor(width/resolution) = floor(1/2) = 0`, yet construction succeeds —
no `ConfigError`, no error at all — producing a usable accumulator with
zero columns and zero rows. -/
theorem C5_counterexample :
    QuickMapMaker.init 0 0 1 1 2 = Except.ok stDegenerate ∧
    stDegenerate.nx = 0 ∧ stDegenerate.ny = 0 :=
  ⟨initDegenerate, rfl, rfl⟩

/-- Claim C5, amended: construction performs no grid validation of its
own.  It fails only with the runtime's `ZeroDivisionError` when
`resolution = 0` (and with `ValueError` when a derived bin count is
negative); zero-row or zero-column grids are constructed successfully,
so only `columnCount >= 0` and `rowCount >= 0` hold, and the bin edges
are strictly increasing provided the corresponding extent is positive. -/
theorem C5_construction (ra0 dec0 xlen ylen res : ℝ) :
    (res = 0 → QuickMapMaker.init ra0 dec0 xlen ylen res = Except.error PyErr.zeroDivision) ∧
    (∀ st, QuickMapMaker.init ra0 dec0 xlen ylen res = Except.ok st →
      st.nx = pyInt (xlen / res) ∧ 0 ≤ st.nx ∧
      st.ny = pyInt (ylen / res) ∧ 0 ≤ st.ny ∧
      (0 < xlen → st.ra_edges.Chain' (· < ·)) ∧
      (0 < ylen → st.dec_edges.Chain' (· < ·))) := by
  constructor
  · intro h
    unfold QuickMapMaker.init
    rw [if_pos h]
  · intro st h
    unfold QuickMapMaker.init at h
    by_cases h0 : res = 0
    · rw [if_pos h0] at h
      exact absurd h (by simp)
    rw [if_neg h0] at h
    by_cases h1 : pyInt (xlen / res) < 0 ∨ pyInt (ylen / res) < 0
    · rw [if_pos h1] at h
      exact absurd h (by simp)
    rw [if_neg h1] at h
    push_neg at h1
    have hrec := Except.ok.inj h
    subst hrec
    refine ⟨rfl, h1.1, rfl, h1.2, fun hx => ?_, fun hy => ?_⟩
    · exact chain_lt_map_add _ _ (linspace_chain _ _ _ (by linarith))
    · exact chain_lt_map_add _ _ (linspace_chain _ _ _ (by linarith))

/-- Claim C5, amended, witness: the concrete construction
(0, 90, 1, 1, 1/2) succeeds with 2 columns, 2 rows, and strictly
increasing edges on both axes. -/
theorem C5_construction_w :
    stA.nx = pyInt ((1 : ℝ) / (1 / 2)) ∧ 0 ≤ stA.nx ∧
    stA.ny = pyInt ((1 : ℝ) / (1 / 2)) ∧ 0 ≤ stA.ny ∧
    stA.ra_edges.Chain' (· < ·) ∧ stA.dec_edges.Chain' (· < ·) := by
  have h := (C5_construction 0 90 1 1 (1 / 2)).2 stA initA
  exact ⟨h.1, h.2.1, h.2.2.1, h.2.2.2.1, h.2.2.2.2.1 (by norm_num), h.2.2.2.2.2 (by norm_num)⟩

/-- A 2d histogram with non-negative weights is non-negative
everywhere. -/
theorem histogram2d_nonneg {M : Type} [OrderedAddCommMonoid M] (xE yE : List ℝ)
    (samples : List ((ℝ × ℝ) × M)) (i j : ℕ) :
    (∀ s ∈ samples, 0 ≤ s.2) → 0 ≤ histogram2d xE yE samples i j := by
  induction samples with
  | nil =>
    intro _
    exact le_refl _
  | cons s rest ih =>
    intro hw
    have hs : (0 : M) ≤ s.2 := hw s (List.mem_cons_self s rest)
    have hrest : ∀ t ∈ rest, (0 : M) ≤ t.2 := fun t ht => hw t (List.mem_cons_of_mem s ht)
    cases h1 : binIndex xE s.1.1 with
    | none =>
      simp only [histogram2d, h1]
      exact ih hrest
    | some a =>
      cases h2 : binIndex yE s.1.2 with
      | none =>
        simp only [histogram2d, h1, h2]
        exact ih hrest
      | some b =>
        simp only [histogram2d, h1, h2]
        by_cases hij : i = a ∧ j = b
        · rw [if_pos hij]
          exact add_nonneg (ih hrest) hs
        · rw [if_neg hij]
          exact ih hrest

/-- The detector loop body never decreases any hit-count cell. -/
theorem processDetector_hits_mono (decE raE : List ℝ) (dict : List (String × QuatVF))
    (bore : List QuatSF) (gain offset : Option ℝ) (yraw : List ℝ) (kid : String)
    (sky : ℕ → ℕ → ℝ) (hits : ℕ → ℕ → ℤ) (i j : ℕ) :
    hits i j ≤ (processDetector decE raE dict bore gain offset yraw kid sky hits).2.1 i j := by
  unfold processDetector
  cases hl : lookupLast dict kid with
  | none => exact le_refl _
  | some dq =>
    dsimp only
    by_cases hlen : (physSignal gain offset yraw).length = bore.length
    · rw [if_pos hlen]
      have : (0 : ℤ) ≤ histogram2d decE raE
          ((bore.map fun b => Prod.swap (detRaDec b dq)).map fun p => (p, (1 : ℤ))) i j := by
        apply histogram2d_nonneg
        intro s hs
        rcases List.mem_map.mp hs with ⟨p, _, hp⟩
        rw [← hp]
        norm_num
      simp only []
      omega
    · rw [if_neg hlen]

/-- The detector loop body never decreases any signal cell when the
reconstructed physical sample values are all non-negative. -/
theorem processDetector_sky_mono (decE raE : List ℝ) (dict : List (String × QuatVF))
    (bore : List QuatSF) (gain offset : Option ℝ) (yraw : List ℝ) (kid : String)
    (sky : ℕ → ℕ → ℝ) (hits : ℕ → ℕ → ℤ) (i j : ℕ)
    (hw : ∀ w ∈ physSignal gain offset yraw, (0 : ℝ) ≤ w) :
    sky i j ≤ (processDetector decE raE dict bore gain offset yraw kid sky hits).1 i j := by
  unfold processDetector
  cases hl : lookupLast dict kid with
  | none => exact le_refl _
  | some dq =>
    dsimp only
    by_cases hlen : (physSignal gain offset yraw).length = bore.length
    · rw [if_pos hlen]
      have : (0 : ℝ) ≤ histogram2d decE raE
          ((bore.map fun b => Prod.swap (detRaDec b dq)).zip (physSignal gain offset yraw)) i j := by
        apply histogram2d_nonneg
        intro s hs
        exact hw s.2 (List.of_mem_zip hs).2
      simp only []
      linarith
    · rw [if_neg hlen]

/-- The whole detector loop never decreases any hit-count cell,
regardless of whether it completes or aborts with an error. -/
theorem processKids_hits_mono (bore : List QuatSF) (gainOf offsetOf : String → Option ℝ) :
    ∀ (signal : List (String × List ℝ)) (st : MapState) (i j : ℕ),
    st.hits_map i j ≤ ((processKids bore gainOf offsetOf st signal).1).hits_map i j := by
  intro signal
  induction signal with
  | nil =>
    intro st i j
    exact le_refl _
  | cons kv rest ih =>
    obtain ⟨kid, yraw⟩ := kv
    intro st i j
    have h1 := processDetector_hits_mono st.dec_edges st.ra_edges st.det_offset_dict bore
      (gainOf kid) (offsetOf kid) yraw kid st.sky_map st.hits_map i j
    rcases hd : processDetector st.dec_edges st.ra_edges st.det_offset_dict bore
        (gainOf kid) (offsetOf kid) yraw kid st.sky_map st.hits_map with ⟨sky2, hits2, err⟩
    rw [hd] at h1
    cases err with
    | none =>
      have hstep : processKids bore gainOf offsetOf st ((kid, yraw) :: rest)
          = processKids bore gainOf offsetOf
            { st with sky_map := sky2, hits_map := hits2 } rest := by
        simp only [processKids, hd]
      rw [hstep]
      exact le_trans h1 (ih { st with sky_map := sky2, hits_map := hits2 } i j)
    | some e =>
      have hstep : (processKids bore gainOf offsetOf st ((kid, yraw) :: rest)).1
          = { st with sky_map := sky2, hits_map := hits2 } := by
        simp only [processKids, hd]
      rw [hstep]
      exact h1

/-- The whole detector loop never decreases any signal cell when every
physical sample value of the batch is non-negative. -/
theorem processKids_sky_mono (bore : List QuatSF) (gainOf offsetOf : String → Option ℝ) :
    ∀ (signal : List (String × List ℝ)) (st : MapState) (i j : ℕ),
    (∀ kv ∈ signal, ∀ w ∈ physSignal (gainOf kv.1) (offsetOf kv.1) kv.2, (0 : ℝ) ≤ w) →
    st.sky_map i j ≤ ((processKids bore gainOf offsetOf st signal).1).sky_map i j := by
  intro signal
  induction signal with
  | nil =>
    intro st i j _
    exact le_refl _
  | cons kv rest ih =>
    obtain ⟨kid, yraw⟩ := kv
    intro st i j hw
    have hw1 : ∀ w ∈ physSignal (gainOf kid) (offsetOf kid) yraw, (0 : ℝ) ≤ w :=
      hw (kid, yraw) (List.mem_cons_self _ _)
    have hwrest : ∀ kv ∈ rest, ∀ w ∈ physSignal (gainOf kv.1) (offsetOf kv.1) kv.2, (0 : ℝ) ≤ w :=
      fun kv hkv => hw kv (List.mem_cons_of_mem _ hkv)
    have h1 := processDetector_sky_mono st.dec_edges st.ra_edges st.det_offset_dict bore
      (gainOf kid) (offsetOf kid) yraw kid st.sky_map st.hits_map i j hw1
    rcases hd : processDetector st.dec_edges st.ra_edges st.det_offset_dict bore
        (gainOf kid) (offsetOf kid) yraw kid st.sky_map st.hits_map with ⟨sky2, hits2, err⟩
    rw [hd] at h1
    cases err with
    | none =>
      have hstep : processKids bore gainOf offsetOf st ((kid, yraw) :: rest)
          = processKids bore gainOf offsetOf
            { st with sky_map := sky2, hits_map := hits2 } rest := by
        simp only [processKids, hd]
      rw [hstep]
      exact le_trans h1 (ih { st with sky_map := sky2, hits_map := hits2 } i j hwrest)
    | some e =>
      have hstep : (processKids bore gainOf offsetOf st ((kid, yraw) :: rest)).1
          = { st with sky_map := sky2, hits_map := hits2 } := by
        simp only [processKids, hd]
      rw [hstep]
      exact h1

/-- Claim C7, counterexample: processing the successful scan batch
`scanNegF` (one sample of value -3) from the reachable state `stB` leaves
the hit counts non-decreasing but strictly SHRINKS the magnitude of the
accumulated signal at pixel (1, 1): |5| drops to |2|. -/
theorem C7_counterexample :
    QuickMapMaker.Process stB scanNegF = (stC, Except.ok (some scanNegF)) ∧
    |stC.sky_map 1 1| < |stB.sky_map 1 1| := by
  refine ⟨scanNeg_eval, ?_⟩
  have h2 : stC.sky_map 1 1 = 2 := by norm_num [stC]
  have h5 : stB.sky_map 1 1 = 5 := by norm_num [stB]
  rw [h2, h5, abs_of_nonneg (by norm_num : (0 : ℝ) ≤ 2),
    abs_of_nonneg (by norm_num : (0 : ℝ) ≤ 5)]
  norm_num

/-- Claim C7, amended: across any scan call (successful or aborted) no
hit-count cell ever decreases; and when every reconstructed physical
sample value of the batch is non-negative, no signal cell decreases
either, so the signal magnitude is non-decreasing at every pixel whose
accumulated value is non-negative.  (With sign-varying signal values the
magnitude of `sky_map` can shrink, as the counterexample shows.) -/
theorem C7_monotone (st : MapState) (signal : List (String × List ℝ)) (bore : List QuatSF)
    (gainOf offsetOf : String → Option ℝ) (st1 : MapState) (r : Except PyErr (Option Frame))
    (hrun : QuickMapMaker.Process st (Frame.scan signal bore gainOf offsetOf) = (st1, r)) :
    (∀ i j, st.hits_map i j ≤ st1.hits_map i j) ∧
    ((∀ kv ∈ signal, ∀ w ∈ physSignal (gainOf kv.1) (offsetOf kv.1) kv.2, (0 : ℝ) ≤ w) →
      ∀ i j, st.sky_map i j ≤ st1.sky_map i j ∧
        (0 ≤ st.sky_map i j → |st.sky_map i j| ≤ |st1.sky_map i j|)) := by
  have hst1 : st1 = (processKids bore gainOf offsetOf st signal).1 := by
    rcases hk : processKids bore gainOf offsetOf st signal with ⟨st2, err⟩
    cases err with
    | none =>
      simp only [QuickMapMaker.Process, hk] at hrun
      exact ((Prod.mk.injEq _ _ _ _).mp hrun).1.symm
    | some e =>
      simp only [QuickMapMaker.Process, hk] at hrun
      exact ((Prod.mk.injEq _ _ _ _).mp hrun).1.symm
  subst hst1
  constructor
  · intro i j
    exact processKids_hits_mono bore gainOf offsetOf signal st i j
  · intro hw i j
    have hsky := processKids_sky_mono bore gainOf offsetOf signal st i j hw
    refine ⟨hsky, fun hnn => ?_⟩
    rw [abs_of_nonneg hnn, abs_of_nonneg (le_trans hnn hsky)]
    exact hsky

/-- Claim C7, amended, witness: for the concrete successful scan of one
non-negative sample (value 5) from `stCal`, both the hit count and the
signal at pixel (1, 1) are non-decreasing. -/
theorem C7_monotone_w :
    stCal.hits_map 1 1 ≤ stB.hits_map 1 1 ∧ stCal.sky_map 1 1 ≤ stB.sky_map 1 1 := by
  have h := C7_monotone stCal [("d1", [5])] [idSF] noComp noComp stB
    (Except.ok (some scan5F)) scan5_eval
  have hw : ∀ kv ∈ [("d1", [(5 : ℝ)])],
      ∀ w ∈ physSignal (noComp kv.1) (noComp kv.1) kv.2, (0 : ℝ) ≤ w := by
    intro kv hkv w hwm
    rw [List.mem_singleton] at hkv
    subst hkv
    simp only [physSignal, noComp, List.mem_singleton] at hwm
    rw [hwm]
    norm_num
  exact ⟨h.1 1 1, (h.2 hw 1 1).1⟩

/-- A bin index found by the numpy bin search is bounded by the number of
bins of the remaining edge list. -/
theorem binIndexAux_lt (v : ℝ) :
    ∀ (l : List ℝ) (k i : ℕ), binIndexAux v l k = some i → i < k + (l.length - 1) := by
  intro l
  induction l with
  | nil =>
    intro k i h
    simp [binIndexAux] at h
  | cons a rest ih =>
    intro k i h
    cases rest with
    | nil => simp [binIndexAux] at h
    | cons b rest2 =>
      rw [binIndexAux] at h
      by_cases hc : a ≤ v ∧ (v < b ∨ (rest2 = [] ∧ v = b))
      · rw [if_pos hc] at h
        have hk : k = i := Option.some.inj h
        subst hk
        simp only [List.length_cons]
        omega
      · rw [if_neg hc] at h
        have := ih (k + 1) i h
        simp only [List.length_cons] at this ⊢
        omega

/-- The bound, at the top level: a found bin index is below
`edges.length - 1`. -/
theorem binIndex_lt (edges : List ℝ) (v : ℝ) (i : ℕ) (h : binIndex edges v = some i) :
    i < edges.length - 1 := by
  have := binIndexAux_lt v edges 0 i h
  omega

/-- `inGridRange` never holds for an edge list with fewer than two
edges. -/
theorem inGridRange_short (l : List ℝ) (hl : l.length ≤ 1) (v : ℝ) : ¬ inGridRange l v := by
  rintro ⟨i, hi, -⟩
  omega

/-- Unfolding `inGridRange` across the head of the edge list. -/
theorem inGridRange_cons (a b : ℝ) (rest : List ℝ) (v : ℝ) :
    inGridRange (a :: b :: rest) v ↔
      (a ≤ v ∧ (v < b ∨ (rest = [] ∧ v = b))) ∨ inGridRange (b :: rest) v := by
  unfold inGridRange
  constructor
  · rintro ⟨i, hi, h1, h2⟩
    cases i with
    | zero =>
      left
      refine ⟨by simpa using h1, ?_⟩
      rcases h2 with h | ⟨hL, he⟩
      · left
        simpa using h
      · right
        have hr : rest.length = 0 := by
          simp only [List.length_cons] at hL
          omega
        exact ⟨List.eq_nil_of_length_eq_zero hr, by simpa using he⟩
    | succ j =>
      right
      refine ⟨j, ?_, by simpa using h1, ?_⟩
      · simp only [List.length_cons] at hi ⊢
        omega
      · rcases h2 with h | ⟨hL, he⟩
        · left
          simpa using h
        · right
          refine ⟨?_, by simpa using he⟩
          simp only [List.length_cons] at hL ⊢
          omega
  · rintro (⟨h1, h2⟩ | ⟨j, hj, h1, h2⟩)
    · refine ⟨0, ?_, by simpa using h1, ?_⟩
      · simp only [List.length_cons]
        omega
      · rcases h2 with h | ⟨hr, he⟩
        · left
          simpa using h
        · right
          subst hr
          exact ⟨by simp, by simpa using he⟩
    · refine ⟨j + 1, ?_, by simpa using h1, ?_⟩
      · simp only [List.length_cons] at hj ⊢
        omega
      · rcases h2 with h | ⟨hL, he⟩
        · left
          simpa using h
        · right
          refine ⟨?_, by simpa using he⟩
          simp only [List.length_cons] at hL ⊢
          omega

/-- The numpy bin search succeeds exactly on the values that satisfy the
spec's binning-range rule (for any running index `k`). -/
theorem binIndexAux_isSome_iff (v : ℝ) :
    ∀ (l : List ℝ) (k : ℕ), (binIndexAux v l k).isSome ↔ inGridRange l v := by
  intro l
  induction l with
  | nil =>
    intro k
    constructor
    · intro h
      simp [binIndexAux] at h
    · intro h
      exact absurd h (inGridRange_short [] (by simp) v)
  | cons a rest ih =>
    intro k
    cases rest with
    | nil =>
      constructor
      · intro h
        simp [binIndexAux] at h
      · intro h
        exact absurd h (inGridRange_short [a] (by simp) v)
    | cons b rest2 =>
      rw [binIndexAux, inGridRange_cons]
      by_cases hc : a ≤ v ∧ (v < b ∨ (rest2 = [] ∧ v = b))
      · rw [if_pos hc]
        simp [hc]
      · rw [if_neg hc]
        rw [ih (k + 1)]
        simp [hc]

/-- The top-level form of the bin-search characterization. -/
theorem binIndex_isSome_iff (edges : List ℝ) (v : ℝ) :
    (binIndex edges v).isSome ↔ inGridRange edges v :=
  binIndexAux_isSome_iff v edges 0

/-- Grid sums are additive over pointwise-added grids. -/
theorem gridSum_add {M : Type} [AddCommMonoid M] (n m : ℕ) (g h : ℕ → ℕ → M) :
    gridSum n m (fun i j => g i j + h i j) = gridSum n m g + gridSum n m h := by
  unfold gridSum
  simp only [Finset.sum_add_distrib]

/-- Adding `c` to the single in-range cell (a, b) increases the grid sum
by exactly `c`. -/
theorem gridSum_update {M : Type} [AddCommMonoid M] (n m a b : ℕ) (g : ℕ → ℕ → M) (c : M)
    (ha : a < n) (hb : b < m) :
    gridSum n m (fun i j => if i = a ∧ j = b then g i j + c else g i j)
    = gridSum n m g + c := by
  unfold gridSum
  have hsplit : ∀ i j, (if i = a ∧ j = b then g i j + c else g i j)
      = g i j + (if i = a ∧ j = b then c else 0) := by
    intro i j
    by_cases h : i = a ∧ j = b
    · rw [if_pos h, if_pos h]
    · rw [if_neg h, if_neg h, add_zero]
  simp only [hsplit, Finset.sum_add_distrib]
  congr 1
  have hinner : ∀ i, (∑ j ∈ Finset.range m, if i = a ∧ j = b then c else 0)
      = if i = a then c else 0 := by
    intro i
    by_cases hia : i = a
    · subst hia
      rw [if_pos rfl]
      simp only [true_and]
      rw [Finset.sum_ite_eq' (Finset.range m) b fun _ => c]
      exact if_pos (Finset.mem_range.mpr hb)
    · rw [if_neg hia]
      apply Finset.sum_eq_zero
      intro j _
      rw [if_neg]
      rintro ⟨h1, -⟩
      exact hia h1
  simp only [hinner]
  rw [Finset.sum_ite_eq' (Finset.range n) a fun _ => c]
  exact if_pos (Finset.mem_range.mpr ha)

/-- A sample whose (dec, ra) is out of either edge range contributes
nothing: the histogram with it equals the histogram without it.  This is
the silent-drop behaviour of `np.histogram2d`. -/
theorem histogram2d_drop {M : Type} [AddCommMonoid M] (xE yE : List ℝ) (dr : ℝ × ℝ) (w : M)
    (rest : List ((ℝ × ℝ) × M))
    (h : ¬ inGridRange xE dr.1 ∨ ¬ inGridRange yE dr.2) :
    histogram2d xE yE ((dr, w) :: rest) = histogram2d xE yE rest := by
  rcases h with h | h
  · have hx : binIndex xE dr.1 = none := by
      cases hb : binIndex xE dr.1 with
      | none => rfl
      | some a =>
        exact absurd ((binIndex_isSome_iff xE dr.1).mp (by rw [hb]; rfl)) h
    simp only [histogram2d, hx]
  · have hy : binIndex yE dr.2 = none := by
      cases hb : binIndex yE dr.2 with
      | none => rfl
      | some a =>
        exact absurd ((binIndex_isSome_iff yE dr.2).mp (by rw [hb]; rfl)) h
    cases hx : binIndex xE dr.1 with
    | none => simp only [histogram2d, hx]
    | some a => simp only [histogram2d, hx, hy]

open Classical in
/-- Conservation at the histogram level: the total of the unweighted 2d
histogram over all bins equals the number of samples lying within both
edge ranges. -/
theorem hist_count_sum (xE yE : List ℝ) :
    ∀ pts : List (ℝ × ℝ),
    gridSum (xE.length - 1) (yE.length - 1)
      (histogram2d xE yE (pts.map fun p => (p, (1 : ℤ))))
    = (inRangeCount xE yE pts : ℤ) := by
  intro pts
  induction pts with
  | nil =>
    simp [histogram2d, gridSum, inRangeCount]
  | cons p rest ih =>
    rw [List.map_cons]
    cases h1 : binIndex xE p.1 with
    | none =>
      rw [histogram2d_drop xE yE p 1 _ (Or.inl (fun hx =>
        by rw [← binIndex_isSome_iff, h1] at hx; simp at hx)), ih]
      unfold inRangeCount
      rw [List.countP_cons]
      have hnp : ¬ (inGridRange xE p.1 ∧ inGridRange yE p.2) := by
        rintro ⟨hx, -⟩
        rw [← binIndex_isSome_iff, h1] at hx
        simp at hx
      simp [hnp]
    | some a =>
      cases h2 : binIndex yE p.2 with
      | none =>
        rw [histogram2d_drop xE yE p 1 _ (Or.inr (fun hy =>
          by rw [← binIndex_isSome_iff, h2] at hy; simp at hy)), ih]
        unfold inRangeCount
        rw [List.countP_cons]
        have hnp : ¬ (inGridRange xE p.1 ∧ inGridRange yE p.2) := by
          rintro ⟨-, hy⟩
          rw [← binIndex_isSome_iff, h2] at hy
          simp at hy
        simp [hnp]
      | some b =>
        have ha := binIndex_lt xE p.1 a h1
        have hb := binIndex_lt yE p.2 b h2
        have hhist : histogram2d xE yE ((p, (1 : ℤ)) :: rest.map fun q => (q, (1 : ℤ)))
            = fun i j => if i = a ∧ j = b then
                histogram2d xE yE (rest.map fun q => (q, (1 : ℤ))) i j + 1
              else histogram2d xE yE (rest.map fun q => (q, (1 : ℤ))) i j := by
          simp only [histogram2d, h1, h2]
        rw [hhist, gridSum_update _ _ a b _ 1 ha hb, ih]
        unfold inRangeCount
        rw [List.countP_cons]
        have hp : inGridRange xE p.1 ∧ inGridRange yE p.2 := by
          constructor
          · rw [← binIndex_isSome_iff, h1]
            rfl
          · rw [← binIndex_isSome_iff, h2]
            rfl
        simp only [hp, and_self, decide_True, if_true]
        push_cast
        ring

/-- Conservation across one successful detector-loop iteration: the total
hit count rises by exactly the number of that detector's samples whose
(dec, ra) lies within both edge ranges. -/
theorem processDetector_hits_sum (decE raE : List ℝ) (dict : List (String × QuatVF))
    (bore : List QuatSF) (gain offset : Option ℝ) (yraw : List ℝ) (kid : String)
    (sky : ℕ → ℕ → ℝ) (hits : ℕ → ℕ → ℤ) (sky2 : ℕ → ℕ → ℝ) (hits2 : ℕ → ℕ → ℤ)
    (h : processDetector decE raE dict bore gain offset yraw kid sky hits
      = (sky2, hits2, none)) :
    gridSum (decE.length - 1) (raE.length - 1) hits2
    = gridSum (decE.length - 1) (raE.length - 1) hits
      + (inRangeCount decE raE (detPts dict bore kid) : ℤ) := by
  unfold processDetector at h
  cases hl : lookupLast dict kid with
  | none =>
    rw [hl] at h
    simp at h
  | some dq =>
    rw [hl] at h
    dsimp only at h
    by_cases hlen : (physSignal gain offset yraw).length = bore.length
    · rw [if_pos hlen] at h
      have hh : hits2 = fun i j => hits i j +
          histogram2d decE raE
            ((bore.map fun b => Prod.swap (detRaDec b dq)).map fun p => (p, (1 : ℤ))) i j := by
        have := ((Prod.mk.injEq _ _ _ _).mp h).2
        exact (((Prod.mk.injEq _ _ _ _).mp this).1).symm
      rw [hh, gridSum_add, hist_count_sum]
      have hpts : detPts dict bore kid = bore.map fun b => Prod.swap (detRaDec b dq) := by
        unfold detPts
        rw [hl]
      rw [hpts]
    · rw [if_neg hlen] at h
      simp at h

/-- Conservation across the whole detector loop on success: the total
hit count rises by the sum over the batch's detectors of their in-range
sample counts. -/
theorem processKids_hits_sum (bore : List QuatSF) (gainOf offsetOf : String → Option ℝ) :
    ∀ (signal : List (String × List ℝ)) (st st1 : MapState),
    processKids bore gainOf offsetOf st signal = (st1, none) →
    gridSum (st.dec_edges.length - 1) (st.ra_edges.length - 1) st1.hits_map
    = gridSum (st.dec_edges.length - 1) (st.ra_edges.length - 1) st.hits_map
      + ((signal.map fun kv =>
          (inRangeCount st.dec_edges st.ra_edges
            (detPts st.det_offset_dict bore kv.1) : ℤ)).sum) := by
  intro signal
  induction signal with
  | nil =>
    intro st st1 h
    have hst : st = st1 := ((Prod.mk.injEq _ _ _ _).mp h).1
    subst hst
    simp
  | cons kv rest ih =>
    obtain ⟨kid, yraw⟩ := kv
    intro st st1 h
    rcases hd : processDetector st.dec_edges st.ra_edges st.det_offset_dict bore
        (gainOf kid) (offsetOf kid) yraw kid st.sky_map st.hits_map with ⟨sky2, hits2, err⟩
    cases err with
    | some e =>
      simp only [processKids, hd] at h
      exact absurd ((Prod.mk.injEq _ _ _ _).mp h).2 (by simp)
    | none =>
      simp only [processKids, hd] at h
      have hsum1 := processDetector_hits_sum st.dec_edges st.ra_edges st.det_offset_dict bore
        (gainOf kid) (offsetOf kid) yraw kid st.sky_map st.hits_map sky2 hits2 hd
      have hrec := ih { st with sky_map := sky2, hits_map := hits2 } st1 h
      dsimp only at hrec
      rw [hrec, hsum1, List.map_cons, List.sum_cons]
      ring

/-- Claim C3: for every successfully processed scan batch, the total
increase of the sum of `hits_map` over all pixels equals, summed over
the batch's detectors, the number of that detector's samples whose
reconstructed (dec, ra) lies within the grid edge ranges — "within"
being the spec's binning rule `inGridRange` (`edges[i] <= v < edges[i+1]`
with the final bin closed on the right at the maximum edge); and every
sample out of either range contributes to neither the weighted nor the
unweighted histogram (silently dropped, no error). -/
theorem C3_conservation (st st1 : MapState) (signal : List (String × List ℝ))
    (bore : List QuatSF) (gainOf offsetOf : String → Option ℝ) (fr : Option Frame)
    (hrun : QuickMapMaker.Process st (Frame.scan signal bore gainOf offsetOf)
      = (st1, Except.ok fr)) :
    gridSum (st.dec_edges.length - 1) (st.ra_edges.length - 1) st1.hits_map
      = gridSum (st.dec_edges.length - 1) (st.ra_edges.length - 1) st.hits_map
        + ((signal.map fun kv =>
            (inRangeCount st.dec_edges st.ra_edges
              (detPts st.det_offset_dict bore kv.1) : ℤ)).sum) ∧
    (∀ (dr : ℝ × ℝ) (w : ℝ) (rest : List ((ℝ × ℝ) × ℝ)),
      (¬ inGridRange st.dec_edges dr.1 ∨ ¬ inGridRange st.ra_edges dr.2) →
      histogram2d st.dec_edges st.ra_edges ((dr, w) :: rest)
        = histogram2d st.dec_edges st.ra_edges rest) ∧
    (∀ (dr : ℝ × ℝ) (c : ℤ) (rest : List ((ℝ × ℝ) × ℤ)),
      (¬ inGridRange st.dec_edges dr.1 ∨ ¬ inGridRange st.ra_edges dr.2) →
      histogram2d st.dec_edges st.ra_edges ((dr, c) :: rest)
        = histogram2d st.dec_edges st.ra_edges rest) := by
  refine ⟨?_, fun dr w rest h => histogram2d_drop _ _ dr w rest h,
    fun dr c rest h => histogram2d_drop _ _ dr c rest h⟩
  rcases hk : processKids bore gainOf offsetOf st signal with ⟨st2, err⟩
  cases err with
  | none =>
    have hst : st2 = st1 := by
      simp only [QuickMapMaker.Process, hk] at hrun
      exact ((Prod.mk.injEq _ _ _ _).mp hrun).1
    subst hst
    exact processKids_hits_sum bore gainOf offsetOf signal st st2 hk
  | some e =>
    simp only [QuickMapMaker.Process, hk] at hrun
    exact absurd ((Prod.mk.injEq _ _ _ _).mp hrun).2 (by simp)

/-- Claim C3, witness: the concrete successful scan `scan5F` from `stCal`
satisfies the conservation equation (its single sample is in range, so
the total hit count rises by exactly that in-range count). -/
theorem C3_conservation_w :
    gridSum (stCal.dec_edges.length - 1) (stCal.ra_edges.length - 1) stB.hits_map
      = gridSum (stCal.dec_edges.length - 1) (stCal.ra_edges.length - 1) stCal.hits_map
        + ((([("d1", [(5 : ℝ)])] : List (String × List ℝ)).map fun kv =>
            (inRangeCount stCal.dec_edges stCal.ra_edges
              (detPts stCal.det_offset_dict [idSF] kv.1) : ℤ)).sum) :=
  (C3_conservation stCal stB [("d1", [5])] [idSF] noComp noComp (some scan5F) scan5_eval).1
